import Mathlib

set_option autoImplicit false

/-!
Verification of the in-memory filesystem of the fsx repository (package
memfs, with flag constants from package fsx).

The Go source is shallowly embedded as follows.

* Nodes (`entry` in Go: `file`, `dir`, `symlink`) become the inductive
  `Entry`.  A Go directory's `children map[string]entry` becomes an
  association list `List (String × Entry)` with unique keys; map reads,
  writes and deletes become `lookupChild`, `setChild`, `eraseChild`.
* Go mutates nodes through shared pointers.  The embedding represents the
  tree as a value and performs each mutation at the path that the mutating
  operation resolved, which coincides with the pointer mutation for every
  execution in which the mutated node is reachable at that path (all claim
  scenarios; hard links, which alias one node under two names, are outside
  the claims).
* Recursive walks (`dir.find`, and symlink indirection in `stat`/`open`)
  take an explicit fuel parameter so that every definition is structurally
  recursive and kernel-computable; Go's recursion is unbounded and can
  diverge on symlink cycles, which the model reports as `FsError.outOfFuel`.
  Every theorem below either quantifies over the fuel or hypothesises only
  `Entry.find` results at the same fuel the operation uses, so the theorems
  describe exactly the terminating Go executions.
* `fs.FileMode` becomes `Nat`; `Perm()` is masking with 0o777, `fs.ModeDir`
  is bit 31.  Byte buffers become `List Nat`.  Times, uid/gid and the
  per-node locks are not modelled: no claim mentions them, and the lock
  calls in the source neither change values nor alter control flow of a
  single-threaded execution.
* Errors: `*fs.PathError{Op, Path, Err}` becomes `FsError.pathError`;
  `io.EOF` becomes `FsError.eof`.
-/

/-- Flag constant from fsx: os.O_RDONLY on linux. -/
def O_RDONLY : Nat := 0

/-- Flag constant from fsx: os.O_WRONLY on linux. -/
def O_WRONLY : Nat := 1

/-- Flag constant from fsx: os.O_RDWR on linux. -/
def O_RDWR : Nat := 2

/-- Flag constant from fsx: os.O_CREATE on linux. -/
def O_CREATE : Nat := 64

/-- Flag constant from fsx: os.O_EXCL on linux. -/
def O_EXCL : Nat := 128

/-- Flag constant from fsx: os.O_TRUNC on linux. -/
def O_TRUNC : Nat := 512

/-- Flag constant from fsx: os.O_APPEND on linux. -/
def O_APPEND : Nat := 1024

/-- go's fs.ModeDir bit (1 shifted left 31 times). -/
def ModeDir : Nat := 2 ^ 31

/-- Error kinds carried in the Err field of a go fs.PathError. -/
inductive ErrKind where
  | notExist
  | invalid
  | permission
  | isDirectory
deriving DecidableEq, Repr

/-- Errors surfaced by the embedded operations: a fs.PathError, the io.EOF
sentinel, or the modelling artifact for exhausted symlink fuel (go would
recurse without bound there). -/
inductive FsError where
  | pathError (op : String) (path : String) (kind : ErrKind)
  | eof
  | outOfFuel
deriving DecidableEq, Repr

/-- Embedding of the memfs node types: file, dir and symlink entries.
A file holds its permission bits and content; a dir holds its permission
bits and named children; a symlink holds its target path. -/
inductive Entry where
  | file (perm : Nat) (content : List Nat)
  | dir (perm : Nat) (children : List (String × Entry))
  | symlink (targetPath : String)

/-- Reading from a go children map: first binding of the name, if any. -/
def lookupChild : List (String × Entry) → String → Option Entry
  | [], _ => none
  | (k, c) :: rest, n => if k = n then some c else lookupChild rest n

/-- Writing to a go children map: replace the binding if present, else add. -/
def setChild : List (String × Entry) → String → Entry → List (String × Entry)
  | [], n, e => [(n, e)]
  | (k, c) :: rest, n, e => if k = n then (n, e) :: rest else (k, c) :: setChild rest n e

/-- Deleting from a go children map. -/
def eraseChild : List (String × Entry) → String → List (String × Entry)
  | [], _ => []
  | (k, c) :: rest, n => if k = n then rest else (k, c) :: eraseChild rest n

/-- Applying a function to the entry bound to a name, if present. -/
def updateChildAt : List (String × Entry) → String → (Entry → Entry) → List (String × Entry)
  | [], _, _ => []
  | (k, c) :: rest, n, g => if k = n then (k, g c) :: rest else (k, c) :: updateChildAt rest n g

/-- Split a character list at the first slash, as memfs.lsplit does by
iterating the runes of the path: some (before, after) when a slash occurs. -/
def lsplitChars : List Char → Option (List Char × List Char)
  | [] => none
  | c :: rest =>
    if c = '/' then some ([], rest)
    else (lsplitChars rest).map (fun pr => (c :: pr.1, pr.2))

/-- memfs.lsplit: split at the first separator into (dir, remainder);
a path without a separator yields an empty dir part. -/
def lsplit (s : String) : String × String :=
  match lsplitChars s.data with
  | none => ("", s)
  | some (d, r) => (⟨d⟩, ⟨r⟩)

/-- Split a character list at the last slash: some (before, after) when a
slash occurs.  This is go's path.Split with the trailing slash already
trimmed from the dir part, exactly what memfs.split produces. -/
def rsplitChars : List Char → Option (List Char × List Char)
  | [] => none
  | c :: rest =>
    match rsplitChars rest with
    | some (d, f) => some (c :: d, f)
    | none => if c = '/' then some ([], rest) else none

/-- memfs.split: path.Split with the trailing slash removed from dirName. -/
def split (s : String) : String × String :=
  match rsplitChars s.data with
  | none => ("", s)
  | some (d, f) => (⟨d⟩, ⟨f⟩)

/-- dir.find: walk the tree from a directory along a slash separated path.
Fuel bounds the directory-nesting recursion depth (go's recursion is
structurally bounded by the path, fuel at least the number of path segments
is always enough).  Returns none where go returns nil, including when an
intermediate segment is not a directory. -/
def Entry.find : Nat → Entry → String → Option Entry
  | 0, _, _ => none
  | fuel + 1, e, name =>
    match e with
    | .dir _ children =>
      if name = "" then some e
      else
        let pr := lsplit name
        if pr.1 = "" then lookupChild children pr.2
        else
          match lookupChild children pr.1 with
          | none => none
          | some c =>
            match c with
            | .dir p cc => Entry.find fuel (.dir p cc) pr.2
            | _ => none
    | _ => none

/-- Apply g to the node that `Entry.find` locates at the given path,
walking with the same fuel and the same steps as find.  This models go's
in-place mutation of the found node through its pointer. -/
def Entry.updateAt : Nat → Entry → String → (Entry → Entry) → Entry
  | 0, e, _, _ => e
  | fuel + 1, e, name, g =>
    match e with
    | .dir perm children =>
      if name = "" then g (.dir perm children)
      else
        let pr := lsplit name
        if pr.1 = "" then .dir perm (updateChildAt children pr.2 g)
        else
          .dir perm (updateChildAt children pr.1 (fun c =>
            match c with
            | .dir p cc => Entry.updateAt fuel (.dir p cc) pr.2 g
            | _ => c))
    | e => e

/-- Mutate the children of the directory located at a path, modelling go
code that finds a dir and then writes to its children map. -/
def updateDirAt (fuel : Nat) (root : Entry) (path : String)
    (f : List (String × Entry) → List (String × Entry)) : Entry :=
  Entry.updateAt fuel root path (fun e =>
    match e with
    | .dir perm children => .dir perm (f children)
    | e => e)

/-- fileInfo: the fs.FileInfo produced by stat (times, uid and gid are not
modelled; mode carries ModeDir for directories). -/
structure FileInfo where
  path : String
  size : Nat
  mode : Nat
deriving DecidableEq, Repr

/-- fileHandle: a per-open view of a file node, holding the open path, the
derived readable/writable capabilities, the raw flag, the working buffer
(go shares the node's slice; the embedding copies the value) and the two
cursors. -/
structure FileHandle where
  path : String
  readable : Bool
  writable : Bool
  flag : Nat
  buf : List Nat
  readCursor : Nat
  writeCursor : Nat
deriving DecidableEq, Repr

/-- file.open: checks 0400 plus, for a write request, 0200 against the
permission bits, derives readable/writable from the access mode, and starts
the write cursor at the end of the buffer when O_APPEND is set. -/
def fileOpen (perm : Nat) (content : List Nat) (path : String) (flag : Nat) :
    Except FsError FileHandle :=
  let wantPerm : Nat :=
    if flag &&& O_WRONLY ≠ 0 ∨ flag &&& O_RDWR ≠ 0 then 0o400 ||| 0o200 else 0o400
  if (perm &&& 0o777) &&& wantPerm ≠ wantPerm then
    .error (.pathError "open" path .permission)
  else
    let readable := flag &&& O_WRONLY = 0
    let writable := flag &&& O_WRONLY ≠ 0 ∨ flag &&& O_RDWR ≠ 0
    let writeCursor := if writable ∧ flag &&& O_APPEND ≠ 0 then content.length else 0
    .ok ⟨path, readable, writable, flag, content, 0, writeCursor⟩

/-- fileHandle.Read with a destination buffer of the given size: permission
check, EOF once the read cursor reached the buffer length, else deliver
min(remaining, size) bytes and advance the read cursor. -/
def FileHandle.read (h : FileHandle) (bufSize : Nat) :
    Except FsError (List Nat × FileHandle) :=
  if !h.readable then .error (.pathError "Read" h.path .permission)
  else if h.buf.length ≤ h.readCursor then .error .eof
  else
    let l := min (h.buf.length - h.readCursor) bufSize
    .ok ((h.buf.drop h.readCursor).take l, { h with readCursor := h.readCursor + l })

/-- fileHandle.Write: overwrite in place from the write cursor up to the
current buffer length, then append whatever remains of p; returns the full
length of p. -/
def FileHandle.write (h : FileHandle) (p : List Nat) :
    Except FsError (FileHandle × Nat) :=
  if !h.writable then .error (.pathError "Write" h.path .permission)
  else
    let overwrite := min p.length (h.buf.length - h.writeCursor)
    let buf1 := h.buf.take h.writeCursor ++ p.take overwrite
      ++ h.buf.drop (h.writeCursor + overwrite)
    if overwrite < p.length then
      let buf2 := buf1 ++ p.drop overwrite
      .ok ({ h with buf := buf2, writeCursor := buf2.length }, p.length)
    else
      .ok ({ h with buf := buf1, writeCursor := h.writeCursor + overwrite }, p.length)

/-- dirEntry: one materialized directory listing record, holding the child
name and its stat result at materialization time. -/
structure DirEntry where
  name : String
  info : FileInfo
deriving DecidableEq, Repr

/-- dirHandle: a per-open view of a directory node.  The children snapshot
stands in for go's node pointer; entries is nil until materialized. -/
structure DirHandle where
  children : List (String × Entry)
  path : String
  entries : Option (List DirEntry)
  lastEntryIndex : Nat
  writable : Bool

/-- dirOpen: dir.open performs the same permission check as file.open and
records whether the handle is writable. -/
def dirOpen (perm : Nat) (children : List (String × Entry)) (path : String) (flag : Nat) :
    Except FsError DirHandle :=
  let wantPerm : Nat :=
    if flag &&& O_WRONLY ≠ 0 ∨ flag &&& O_RDWR ≠ 0 then 0o400 ||| 0o200 else 0o400
  if (perm &&& 0o777) &&& wantPerm ≠ wantPerm then
    .error (.pathError "open" path .permission)
  else
    .ok ⟨children, path, none, 0, flag &&& O_WRONLY ≠ 0 ∨ flag &&& O_RDWR ≠ 0⟩

/-- A handle returned from open: either a file handle or a dir handle
(symlink opens resolve to one of these two). -/
inductive Handle where
  | file (h : FileHandle)
  | dir (h : DirHandle)

/-- go path.Join for the already-clean arguments memfs passes it (a clean
handle path and a child name): concatenation with a separator. -/
def pathJoin (d n : String) : String :=
  if d = "" then n else if n = "" then d else d ++ "/" ++ n

/-- entry.stat: file.stat and dir.stat build a fileInfo from the node;
symlink.stat re-resolves its target from the root and delegates, failing
not-found on the target path when the target does not resolve.  Fuel
bounds the symlink chain (go recurses unboundedly). -/
def entryStat : Nat → Entry → Entry → String → Except FsError FileInfo
  | _, _, .file perm content, path => .ok ⟨path, content.length, perm⟩
  | _, _, .dir perm _, path => .ok ⟨path, 0, ModeDir ||| perm⟩
  | 0, _, .symlink _, _ => .error .outOfFuel
  | fuel + 1, root, .symlink target, path =>
    match Entry.find (fuel + 1) root target with
    | none => .error (.pathError "stat" target .notExist)
    | some e => entryStat fuel root e path

/-- entry.open: dispatch to file.open or dir.open; symlink.open re-resolves
its target from the root and delegates, failing not-found on the target
path when the target does not resolve. -/
def entryOpen : Nat → Entry → Entry → String → Nat → Except FsError Handle
  | _, _, .file perm content, path, flag => (fileOpen perm content path flag).map .file
  | _, _, .dir perm children, path, flag => (dirOpen perm children path flag).map .dir
  | 0, _, .symlink _, _, _ => .error .outOfFuel
  | fuel + 1, root, .symlink target, path, flag =>
    match Entry.find (fuel + 1) root target with
    | none => .error (.pathError "open" target .notExist)
    | some e => entryOpen fuel root e path flag

/-- Lexicographic comparison of character lists by code point, the
reflexive version.  For the UTF-8 strings go handles, code-point order
coincides with the byte-wise order of strings.Compare, which
dirEntries.Less uses on entry names. -/
def charListLe : List Char → List Char → Bool
  | [], _ => true
  | _ :: _, [] => false
  | a :: as, b :: bs =>
    if a.toNat < b.toNat then true
    else if b.toNat < a.toNat then false
    else charListLe as bs

/-- charListLe is total. -/
theorem charListLe_total : ∀ as bs, charListLe as bs = true ∨ charListLe bs as = true := by
  intro as
  induction as with
  | nil => intro bs; left; rfl
  | cons a as ih =>
    intro bs
    cases bs with
    | nil => right; rfl
    | cons b bs =>
      by_cases hab : a.toNat < b.toNat
      · left; simp [charListLe, hab]
      · by_cases hba : b.toNat < a.toNat
        · right; simp [charListLe, hba]
        · rcases ih bs with h | h
          · left; simpa [charListLe, hab, hba] using h
          · right; simpa [charListLe, hab, hba] using h

/-- charListLe is transitive. -/
theorem charListLe_trans : ∀ as bs cs, charListLe as bs = true →
    charListLe bs cs = true → charListLe as cs = true := by
  intro as
  induction as with
  | nil => intro bs cs _ _; rfl
  | cons a as ih =>
    intro bs cs h1 h2
    cases bs with
    | nil => simp [charListLe] at h1
    | cons b bs =>
      cases cs with
      | nil => simp [charListLe] at h2
      | cons c cs =>
        simp only [charListLe] at h1 h2 ⊢
        by_cases hab : a.toNat < b.toNat
        · by_cases hbc : b.toNat < c.toNat
          · rw [if_pos (by omega)]
          · rw [if_neg hbc] at h2
            by_cases hcb : c.toNat < b.toNat
            · simp [hcb] at h2
            · rw [if_pos (by omega)]
        · rw [if_neg hab] at h1
          by_cases hba : b.toNat < a.toNat
          · simp [hba] at h1
          · by_cases hbc : b.toNat < c.toNat
            · rw [if_pos (by omega)]
            · rw [if_neg hbc] at h2
              by_cases hcb : c.toNat < b.toNat
              · simp [hcb] at h2
              · rw [if_neg (by omega), if_neg (by omega)]
                exact ih bs cs (by simpa [hab, hba] using h1) (by simpa [hbc, hcb] using h2)

/-- Ordering of materialized directory entries: dirEntries.Less sorts by
strings.Compare on the names (byte-wise, equivalently code-point-wise for
UTF-8); byNameLE is its reflexive closure, which sorts the duplicate-free
name sets of a directory identically. -/
def byNameLE (a b : DirEntry) : Prop := charListLe a.name.data b.name.data = true

instance byNameLEDecidable : DecidableRel byNameLE :=
  fun a b => inferInstanceAs (Decidable (charListLe a.name.data b.name.data = true))

instance byNameLETotal : IsTotal DirEntry byNameLE :=
  ⟨fun a b => charListLe_total a.name.data b.name.data⟩

instance byNameLETrans : IsTrans DirEntry byNameLE :=
  ⟨fun _ _ _ hab hbc => charListLe_trans _ _ _ hab hbc⟩

/-- The stat pass of dirHandle.initializeEntries: one dirEntry per child,
in map order, stopping at the first stat error. -/
def statChildren : Nat → Entry → String → List (String × Entry) →
    Except FsError (List DirEntry)
  | _, _, _, [] => .ok []
  | fuel, root, dpath, (n, e) :: rest =>
    match entryStat fuel root e (pathJoin dpath n) with
    | .error err => .error err
    | .ok info =>
      match statChildren fuel root dpath rest with
      | .error err => .error err
      | .ok tail => .ok (⟨n, info⟩ :: tail)

/-- dirHandle.initializeEntries: stat every child and sort the records by
name.  go uses sort.Sort with the byte-wise Less; child names are unique,
so any correct sort produces this list. -/
def initializeEntries (fuel : Nat) (root : Entry) (h : DirHandle) :
    Except FsError (List DirEntry) :=
  match statChildren fuel root h.path h.children with
  | .error err => .error err
  | .ok es => .ok (List.insertionSort byNameLE es)

/-- The body of dirHandle.ReadDir once entries are materialized: EOF when
the cursor has reached the end; n ≤ 0 returns a copy of the whole entries
slice and moves nothing; n > 0 returns up to n entries from the cursor and
advances it. -/
def readDirCore (h : DirHandle) (es : List DirEntry) (n : Int) :
    Except FsError (List DirEntry × DirHandle) :=
  if es.length ≤ h.lastEntryIndex then .error .eof
  else if n ≤ 0 then .ok (es, h)
  else
    let mx := min (h.lastEntryIndex + n.toNat) es.length
    .ok ((es.drop h.lastEntryIndex).take (mx - h.lastEntryIndex),
      { h with lastEntryIndex := mx })

/-- dirHandle.ReadDir: materialize the entries on first use, then serve
from the fixed snapshot. -/
def readDir (fuel : Nat) (root : Entry) (h : DirHandle) (n : Int) :
    Except FsError (List DirEntry × DirHandle) :=
  match h.entries with
  | none =>
    match initializeEntries fuel root h with
    | .error err => .error err
    | .ok es => readDirCore { h with entries := some es } es n
  | some es => readDirCore h es n

/-- Test driver: call ReadDir repeatedly with the same count, collecting
the pages until an error (EOF included) stops the iteration. -/
def readDirPages (fuel : Nat) : Nat → Entry → DirHandle → Int → List DirEntry
  | 0, _, _, _ => []
  | pf + 1, root, h, n =>
    match readDir fuel root h n with
    | .error _ => []
    | .ok (page, h2) => page ++ readDirPages fuel pf root h2 n

/-- Write on a handle: dirHandle.Write always fails with ErrIsDirectory. -/
def Handle.write : Handle → List Nat → Except FsError (Handle × Nat)
  | .file h, p => (h.write p).map (fun pr => (.file pr.1, pr.2))
  | .dir h, _ => .error (.pathError "Write" h.path .isDirectory)

/-- Read on a handle: dirHandle.Read always fails with ErrIsDirectory. -/
def Handle.read : Handle → Nat → Except FsError (List Nat × Handle)
  | .file h, n => (h.read n).map (fun pr => (pr.1, .file pr.2))
  | .dir h, _ => .error (.pathError "Read" h.path .isDirectory)

/-- fileHandle.Close commits the handle's working buffer back into the file
node when the handle is writable; dirHandle.Close only releases the lock.
The node a go handle points at is located here by the path the handle was
opened with. -/
def Handle.closeCommit (fuel : Nat) (root : Entry) : Handle → Entry
  | .file h =>
    if h.writable then
      Entry.updateAt fuel root h.path (fun e =>
        match e with
        | .file perm _ => .file perm h.buf
        | e => e)
    else root
  | .dir _ => root

/-- Test driver: read to end-of-stream with a fixed destination buffer
size, concatenating the delivered chunks; the first fuel argument bounds
the number of Read calls. -/
def readAllFuel : Nat → Nat → Handle → Except FsError (List Nat)
  | 0, _, _ => .ok []
  | fuel + 1, bufSize, h =>
    match h.read bufSize with
    | .error .eof => .ok []
    | .error e => .error e
    | .ok (bytes, h2) =>
      match readAllFuel fuel bufSize h2 with
      | .error e => .error e
      | .ok rest => .ok (bytes ++ rest)

/-- memfs.Open (the fs.FS method): find the named entry from the root and
open it read-only; not-found when the name does not resolve. -/
def memfsOpen (fuel : Nat) (root : Entry) (name : String) :
    Except FsError Handle :=
  match Entry.find fuel root name with
  | none => .error (.pathError "Open" name .notExist)
  | some e => entryOpen fuel root e name O_RDONLY

/-- memfs.OpenFile: resolve the parent directory of the path; not-found
when it is missing (the error names only the final component, as the
source does), invalid when it is not a directory.  An existing child is
opened with the given flag; a missing child is only created when O_CREATE
is set and the parent's owner-write bit allows it.  On creation the new
root is returned together with the handle. -/
def memfsOpenFile (fuel : Nat) (root : Entry) (filePath : String)
    (flag : Nat) (perm : Nat) : Except FsError (Handle × Entry) :=
  let pr := split filePath
  match Entry.find fuel root pr.1 with
  | none => .error (.pathError "OpenFile" pr.2 .notExist)
  | some parent =>
    match parent with
    | .dir pperm pchildren =>
      match lookupChild pchildren pr.2 with
      | some e =>
        match entryOpen fuel root e filePath flag with
        | .error err => .error err
        | .ok h => .ok (h, root)
      | none =>
        if flag &&& O_CREATE = 0 then
          .error (.pathError "OpenFile" filePath .notExist)
        else if (pperm &&& 0o777) &&& 0o200 = 0 then
          .error (.pathError "OpenFile" filePath .permission)
        else
          let e := Entry.file perm []
          let root2 := updateDirAt fuel root pr.1 (fun cs => setChild cs pr.2 e)
          match entryOpen fuel root2 e filePath flag with
          | .error err => .error err
          | .ok h => .ok (h, root2)
    | _ => .error (.pathError "OpenFile" pr.2 .invalid)

/-- memfs.Mkdir: resolve the parent directory (errors name only the final
component, as the source does) and unconditionally bind the name to a new
empty directory with the given permission. -/
def memfsMkdir (fuel : Nat) (root : Entry) (name : String) (perm : Nat) :
    Except FsError Entry :=
  let pr := split name
  match Entry.find fuel root pr.1 with
  | none => .error (.pathError "Mkdir" pr.2 .notExist)
  | some e =>
    match e with
    | .dir _ _ => .ok (updateDirAt fuel root pr.1 (fun cs => setChild cs pr.2 (.dir perm [])))
    | _ => .error (.pathError "Mkdir" pr.2 .invalid)

/-- memfs.Remove: resolve the parent directory and delete the final name
from its children; go's delete is a no-op when the name is absent. -/
def memfsRemove (fuel : Nat) (root : Entry) (p : String) :
    Except FsError Entry :=
  let pr := split p
  match Entry.find fuel root pr.1 with
  | none => .error (.pathError "Remove" p .notExist)
  | some e =>
    match e with
    | .dir _ _ => .ok (updateDirAt fuel root pr.1 (fun cs => eraseChild cs pr.2))
    | _ => .error (.pathError "Remove" p .invalid)

/-- memfs.RemoveAll simply delegates to memfs.Remove. -/
def memfsRemoveAll (fuel : Nat) (root : Entry) (p : String) :
    Except FsError Entry :=
  memfsRemove fuel root p

/-- memfs.Rename: resolve both parents (not-found), require both to be
directories (invalid), require the source name to be bound (not-found),
then move the node from the old binding to the new one. -/
def memfsRename (fuel : Nat) (root : Entry) (oldpath newpath : String) :
    Except FsError Entry :=
  let oldpr := split oldpath
  let newpr := split newpath
  match Entry.find fuel root oldpr.1 with
  | none => .error (.pathError "Rename" oldpath .notExist)
  | some oldparent =>
    match Entry.find fuel root newpr.1 with
    | none => .error (.pathError "Rename" newpath .notExist)
    | some newparent =>
      match oldparent with
      | .dir _ oldchildren =>
        match newparent with
        | .dir _ _ =>
          match lookupChild oldchildren oldpr.2 with
          | none => .error (.pathError "Rename" oldpath .notExist)
          | some toRename =>
            let root2 := updateDirAt fuel root oldpr.1 (fun cs => eraseChild cs oldpr.2)
            .ok (updateDirAt fuel root2 newpr.1 (fun cs => setChild cs newpr.2 toRename))
        | _ => .error (.pathError "Rename" newpath .invalid)
      | _ => .error (.pathError "Rename" oldpath .invalid)

/-- memfs.Symlink: the source node named oldname must resolve, the parent
of newname must resolve to a directory, and then a symlink node whose
target is the literal string oldname is bound under newname. -/
def memfsSymlink (fuel : Nat) (root : Entry) (oldname newname : String) :
    Except FsError Entry :=
  match Entry.find fuel root oldname with
  | none => .error (.pathError "Symlink" oldname .notExist)
  | some _ =>
    let pr := split newname
    match Entry.find fuel root pr.1 with
    | none => .error (.pathError "Symlink" pr.1 .notExist)
    | some de =>
      match de with
      | .dir _ _ =>
        .ok (updateDirAt fuel root pr.1 (fun cs => setChild cs pr.2 (.symlink oldname)))
      | _ => .error (.pathError "Symlink" pr.1 .invalid)

/-- memfs.Stat: find the named entry from the root and delegate to its
stat; not-found when the name does not resolve. -/
def memfsStat (fuel : Nat) (root : Entry) (path : String) :
    Except FsError FileInfo :=
  match Entry.find fuel root path with
  | none => .error (.pathError "Stat" path .notExist)
  | some e => entryStat fuel root e path

/-- Test driver for the round trip of claim C1: open write-only with
create, write d, close (committing the buffer), open the same path fresh
and read-only through memfs.Open, and read to end-of-stream. -/
def writeReadRoundTrip (fuel bufSize : Nat) (root : Entry) (p : String)
    (perm : Nat) (d : List Nat) : Except FsError (List Nat) :=
  match memfsOpenFile fuel root p (O_WRONLY ||| O_CREATE) perm with
  | .error err => .error err
  | .ok (h, root1) =>
    match h.write d with
    | .error err => .error err
    | .ok (h2, _) =>
      let root2 := h2.closeCommit fuel root1
      match memfsOpen fuel root2 p with
      | .error err => .error err
      | .ok hr => readAllFuel fuel bufSize hr

/-- A path without a separator has an empty dir part under lsplit. -/
theorem lsplitChars_of_not_mem {cs : List Char} (h : '/' ∉ cs) :
    lsplitChars cs = none := by
  induction cs with
  | nil => rfl
  | cons c rest ih =>
    simp only [List.mem_cons, not_or] at h
    have hc : ¬c = '/' := fun hc => h.1 hc.symm
    simp [lsplitChars, hc, ih h.2]

/-- memfs.lsplit on a separator-free path returns it whole as remainder. -/
theorem lsplit_no_slash {s : String} (h : '/' ∉ s.data) :
    lsplit s = ("", s) := by
  simp [lsplit, lsplitChars_of_not_mem h]

/-- A path without a separator has no dir part under rsplitChars. -/
theorem rsplitChars_of_not_mem {cs : List Char} (h : '/' ∉ cs) :
    rsplitChars cs = none := by
  induction cs with
  | nil => rfl
  | cons c rest ih =>
    simp only [List.mem_cons, not_or] at h
    have hc : ¬c = '/' := fun hc => h.1 hc.symm
    simp [rsplitChars, ih h.2, hc]

/-- memfs.split on a separator-free path returns it whole as file name. -/
theorem split_no_slash {s : String} (h : '/' ∉ s.data) :
    split s = ("", s) := by
  simp [split, rsplitChars_of_not_mem h]

/-- A name that resolves in a children list occurs among its keys. -/
theorem mem_keys_of_lookupChild {cs : List (String × Entry)} {n : String} {c : Entry}
    (h : lookupChild cs n = some c) : n ∈ cs.map Prod.fst := by
  induction cs with
  | nil => simp [lookupChild] at h
  | cons hd rest ih =>
    obtain ⟨k0, c0⟩ := hd
    by_cases hk : k0 = n
    · simp [hk]
    · simp only [lookupChild, hk, if_false] at h
      simp [ih h]

/-- A name absent from the keys of a children list does not resolve. -/
theorem lookupChild_eq_none_of_not_mem {cs : List (String × Entry)} {n : String}
    (h : n ∉ cs.map Prod.fst) : lookupChild cs n = none := by
  cases hl : lookupChild cs n with
  | none => rfl
  | some c => exact absurd (mem_keys_of_lookupChild hl) h

/-- Looking up the name just bound by setChild yields the new entry. -/
theorem lookupChild_setChild_self (cs : List (String × Entry)) (n : String) (e : Entry) :
    lookupChild (setChild cs n e) n = some e := by
  induction cs with
  | nil => simp [setChild, lookupChild]
  | cons hd rest ih =>
    obtain ⟨k0, c0⟩ := hd
    by_cases hk : k0 = n
    · simp [setChild, hk, lookupChild]
    · simpa [setChild, hk, lookupChild] using ih

/-- setChild does not disturb lookups of other names. -/
theorem lookupChild_setChild_ne (cs : List (String × Entry)) {k n : String} (e : Entry)
    (hne : k ≠ n) : lookupChild (setChild cs n e) k = lookupChild cs k := by
  induction cs with
  | nil => simp [setChild, lookupChild, Ne.symm hne]
  | cons hd rest ih =>
    obtain ⟨k0, c0⟩ := hd
    by_cases hk : k0 = n
    · simp [setChild, hk, lookupChild, Ne.symm hne]
    · simp only [setChild, hk, if_false, lookupChild]
      by_cases hk2 : k0 = k <;> simp [hk2, ih]

/-- With unique keys, the name deleted by eraseChild no longer resolves. -/
theorem lookupChild_eraseChild_self {cs : List (String × Entry)} (n : String)
    (hkeys : (cs.map Prod.fst).Nodup) :
    lookupChild (eraseChild cs n) n = none := by
  induction cs with
  | nil => rfl
  | cons hd rest ih =>
    obtain ⟨k0, c0⟩ := hd
    simp only [List.map_cons, List.nodup_cons] at hkeys
    by_cases hk : k0 = n
    · subst hk
      simpa [eraseChild] using lookupChild_eq_none_of_not_mem hkeys.1
    · simpa [eraseChild, hk, lookupChild, hk] using ih hkeys.2

/-- eraseChild does not disturb lookups of other names. -/
theorem lookupChild_eraseChild_ne (cs : List (String × Entry)) {k n : String}
    (hne : k ≠ n) : lookupChild (eraseChild cs n) k = lookupChild cs k := by
  induction cs with
  | nil => rfl
  | cons hd rest ih =>
    obtain ⟨k0, c0⟩ := hd
    by_cases hk : k0 = n
    · subst hk
      simp [eraseChild, lookupChild, Ne.symm hne]
    · simp only [eraseChild, hk, if_false, lookupChild]
      by_cases hk2 : k0 = k <;> simp [hk2, ih]

/-- Looking up the name updateChildAt acted on sees the function applied. -/
theorem lookupChild_updateChildAt_self (cs : List (String × Entry)) (n : String)
    (g : Entry → Entry) :
    lookupChild (updateChildAt cs n g) n = (lookupChild cs n).map g := by
  induction cs with
  | nil => rfl
  | cons hd rest ih =>
    obtain ⟨k0, c0⟩ := hd
    by_cases hk : k0 = n
    · simp [updateChildAt, hk, lookupChild]
    · simpa [updateChildAt, hk, lookupChild] using ih

/-- updateChildAt with a function that fixes the bound entry is inert. -/
theorem updateChildAt_eq_self {cs : List (String × Entry)} {n : String}
    {g : Entry → Entry} {t : Entry} (hl : lookupChild cs n = some t) (hg : g t = t) :
    updateChildAt cs n g = cs := by
  induction cs with
  | nil => simp [lookupChild] at hl
  | cons hd rest ih =>
    obtain ⟨k0, c0⟩ := hd
    by_cases hk : k0 = n
    · simp only [lookupChild, hk, if_true, Option.some.injEq] at hl
      subst hl
      simp [updateChildAt, hk, hg]
    · simp only [lookupChild, hk, if_false] at hl
      simp [updateChildAt, hk, ih hl]

/-- The mutation functions the façade passes to updateAt keep a directory a
directory with its permission (they change children or fix the node). -/
def dirPreserving (g : Entry → Entry) : Prop :=
  ∀ perm cs, ∃ cs2, g (.dir perm cs) = .dir perm cs2

/-- updateAt with a dir-preserving mutation keeps the walked directory a
directory with its permission. -/
theorem updateAt_isDir {g : Entry → Entry} (hg : dirPreserving g) :
    ∀ (fuel : Nat) (perm : Nat) (cs : List (String × Entry)) (name : String),
    ∃ cs2, Entry.updateAt fuel (.dir perm cs) name g = .dir perm cs2 := by
  intro fuel perm cs name
  match fuel with
  | 0 => exact ⟨cs, rfl⟩
  | fuel + 1 =>
    by_cases hname : name = ""
    · obtain ⟨cs2, hcs2⟩ := hg perm cs
      exact ⟨cs2, by simp [Entry.updateAt, hname, hcs2]⟩
    · by_cases hpr : (lsplit name).1 = ""
      · exact ⟨updateChildAt cs (lsplit name).2 g, by simp [Entry.updateAt, hname, hpr]⟩
      · refine ⟨updateChildAt cs (lsplit name).1 (fun c =>
          match c with
          | .dir p cc => Entry.updateAt fuel (.dir p cc) (lsplit name).2 g
          | _ => c), ?_⟩
        simp [Entry.updateAt, hname, hpr]

/-- Resolving the mutated path after updateAt sees the mutation applied to
the node that resolved there before, for dir-preserving mutations. -/
theorem find_updateAt {g : Entry → Entry} (hg : dirPreserving g) :
    ∀ (fuel : Nat) (e : Entry) (name : String) (t : Entry),
    Entry.find fuel e name = some t →
    Entry.find fuel (Entry.updateAt fuel e name g) name = some (g t) := by
  intro fuel
  induction fuel with
  | zero => intro e name t h; simp [Entry.find] at h
  | succ fuel ih =>
    intro e name t h
    match e with
    | .file _ _ => simp [Entry.find] at h
    | .symlink _ => simp [Entry.find] at h
    | .dir perm cs =>
      by_cases hname : name = ""
      · simp only [Entry.find, hname, if_true, Option.some.injEq] at h
        obtain ⟨cs2, hcs2⟩ := hg perm cs
        simp [Entry.updateAt, hname, hcs2, Entry.find, ← h]
      · by_cases hpr : (lsplit name).1 = ""
        · simp only [Entry.find, hname, if_false, hpr, if_true] at h
          simp [Entry.updateAt, hname, hpr, Entry.find,
            lookupChild_updateChildAt_self, h]
        · simp only [Entry.find, hname, if_false, hpr, if_true] at h
          cases hlook : lookupChild cs (lsplit name).1 with
          | none => rw [hlook] at h; simp at h
          | some c =>
            rw [hlook] at h
            match c with
            | .file _ _ => simp at h
            | .symlink _ => simp at h
            | .dir p cc =>
              simp only at h
              obtain ⟨cs2, hcs2⟩ :=
                updateAt_isDir hg fuel p cc (lsplit name).2
              have harm : (fun c => match c with
                  | Entry.dir p2 cc2 =>
                    Entry.updateAt fuel (Entry.dir p2 cc2) (lsplit name).2 g
                  | _ => c) (Entry.dir p cc)
                  = Entry.updateAt fuel (Entry.dir p cc) (lsplit name).2 g := rfl
              simp only [Entry.updateAt, hname, if_false, hpr, Entry.find,
                lookupChild_updateChildAt_self, hlook, Option.map_some', harm, hcs2]
              rw [← hcs2]
              exact ih (.dir p cc) (lsplit name).2 t h

/-- updateAt with a mutation that fixes the resolved node is inert. -/
theorem updateAt_eq_self {g : Entry → Entry} :
    ∀ (fuel : Nat) (e : Entry) (name : String) (t : Entry),
    Entry.find fuel e name = some t → g t = t →
    Entry.updateAt fuel e name g = e := by
  intro fuel
  induction fuel with
  | zero => intro e name t h _; simp [Entry.find] at h
  | succ fuel ih =>
    intro e name t h hgt
    match e with
    | .file _ _ => simp [Entry.find] at h
    | .symlink _ => simp [Entry.find] at h
    | .dir perm cs =>
      by_cases hname : name = ""
      · simp only [Entry.find, hname, if_true, Option.some.injEq] at h
        subst h
        simp [Entry.updateAt, hname, hgt]
      · by_cases hpr : (lsplit name).1 = ""
        · simp only [Entry.find, hname, if_false, hpr, if_true] at h
          simp [Entry.updateAt, hname, hpr, updateChildAt_eq_self h hgt]
        · simp only [Entry.find, hname, if_false, hpr, if_true] at h
          cases hlook : lookupChild cs (lsplit name).1 with
          | none => rw [hlook] at h; simp at h
          | some c =>
            rw [hlook] at h
            match c with
            | .file _ _ => simp at h
            | .symlink _ => simp at h
            | .dir p cc =>
              simp only at h
              have hfix : Entry.updateAt fuel (.dir p cc) (lsplit name).2 g
                  = .dir p cc := ih (.dir p cc) (lsplit name).2 t h hgt
              have harm : (fun c => match c with
                  | Entry.dir p2 cc2 =>
                    Entry.updateAt fuel (Entry.dir p2 cc2) (lsplit name).2 g
                  | _ => c) (Entry.dir p cc) = Entry.dir p cc := hfix
              have hinert := updateChildAt_eq_self (g := fun c => match c with
                | Entry.dir p2 cc2 =>
                  Entry.updateAt fuel (Entry.dir p2 cc2) (lsplit name).2 g
                | _ => c) hlook harm
              simp only [Entry.updateAt, hname, if_false, hpr]
              exact congrArg (Entry.dir perm) hinert

/-- Resolving the mutated directory path after updateDirAt sees the
children mutation applied to the directory that resolved there before. -/
theorem find_updateDirAt {fuel : Nat} {root : Entry} {dp : String} {pperm : Nat}
    {pcs : List (String × Entry)} (f : List (String × Entry) → List (String × Entry))
    (h : Entry.find fuel root dp = some (.dir pperm pcs)) :
    Entry.find fuel (updateDirAt fuel root dp f) dp = some (.dir pperm (f pcs)) := by
  have hg : dirPreserving (fun e => match e with
      | Entry.dir perm children => Entry.dir perm (f children)
      | e => e) := fun perm cs => ⟨f cs, rfl⟩
  simpa [updateDirAt] using find_updateAt hg fuel root dp _ h

/-- Reading a readable file handle to end-of-stream with any positive
buffer size and enough fuel delivers exactly the bytes from the read
cursor to the end of the handle's buffer. -/
theorem readAllFuel_spec : ∀ (fuel bufSize : Nat) (h : FileHandle),
    h.readable = true → 1 ≤ bufSize →
    h.buf.length - h.readCursor + 1 ≤ fuel →
    readAllFuel fuel bufSize (.file h) = .ok (h.buf.drop h.readCursor) := by
  intro fuel
  induction fuel with
  | zero => intro bufSize h _ _ hf; omega
  | succ fuel ih =>
    intro bufSize h hr hb hfl
    obtain ⟨p, r, w, fl, buf, rc, wc⟩ := h
    simp only at hr hfl ⊢
    subst hr
    by_cases hend : buf.length ≤ rc
    ·
      have hread : Handle.read (.file ⟨p, true, w, fl, buf, rc, wc⟩) bufSize
          = .error .eof := by
        simp [Handle.read, FileHandle.read, hend, Except.map]
      simp [readAllFuel, hread, List.drop_eq_nil_of_le hend]
    ·
      have hread : Handle.read (.file ⟨p, true, w, fl, buf, rc, wc⟩) bufSize
          = .ok ((buf.drop rc).take (min (buf.length - rc) bufSize),
                 .file ⟨p, true, w, fl, buf, rc + min (buf.length - rc) bufSize, wc⟩) := by
        simp [Handle.read, FileHandle.read, hend, Except.map]
      have hrec := ih bufSize ⟨p, true, w, fl, buf, rc + min (buf.length - rc) bufSize, wc⟩
        rfl hb (by
          show buf.length - (rc + min (buf.length - rc) bufSize) + 1 ≤ fuel
          omega)
      simp only at hrec
      simp only [readAllFuel, hread, hrec]
      have hjoin : (buf.drop rc).take (min (buf.length - rc) bufSize)
          ++ buf.drop (rc + min (buf.length - rc) bufSize) = buf.drop rc := by
        conv_rhs => rw [← List.take_append_drop (min (buf.length - rc) bufSize)
          (buf.drop rc)]
        rw [List.drop_drop, Nat.add_comm]
      rw [hjoin]

/-- Paging through an already materialized directory handle with a fixed
positive count until EOF returns, in order, exactly the entries from the
cursor to the end of the snapshot. -/
theorem readDirPages_spec : ∀ (pf fuel : Nat) (root : Entry) (h : DirHandle)
    (es : List DirEntry) (n : Int),
    h.entries = some es → h.lastEntryIndex ≤ es.length → 0 < n →
    es.length - h.lastEntryIndex + 1 ≤ pf →
    readDirPages fuel pf root h n = es.drop h.lastEntryIndex := by
  intro pf
  induction pf with
  | zero => intro fuel root h es n _ _ _ hf; omega
  | succ pf ih =>
    intro fuel root h es n hes hle hn hf
    obtain ⟨cs, p, ents, i, w⟩ := h
    simp only at hes hle hf ⊢
    subst hes
    by_cases hend : es.length ≤ i
    · simp [readDirPages, readDir, readDirCore, hend,
        List.drop_eq_nil_of_le hend]
    · have hn2 : ¬n ≤ 0 := by omega
      have hrec := ih fuel root ⟨cs, p, some es, min (i + n.toNat) es.length, w⟩
        es n rfl (by show min (i + n.toNat) es.length ≤ es.length; exact min_le_right _ _) hn
        (by
          show es.length - min (i + n.toNat) es.length + 1 ≤ pf
          have h1 : 1 ≤ n.toNat := by omega
          omega)
      simp only at hrec
      simp only [readDirPages, readDir, readDirCore, hend, if_false, hn2]
      rw [hrec]
      have heq : es.drop (min (i + n.toNat) es.length)
          = (es.drop i).drop (min (i + n.toNat) es.length - i) := by
        rw [List.drop_drop]
        congr 1
        have : i ≤ min (i + n.toNat) es.length := by
          simp only [le_min_iff]
          omega
        omega
      rw [heq, List.take_append_drop]

/-- A mode whose owner bits admit read and write admits read alone. -/
theorem land_0o400_of_land_0o600 {q : Nat} (h : q &&& 0o600 = 0o600) :
    q &&& 0o400 = 0o400 := by
  have h1 : (0o600 : Nat) &&& 0o400 = 0o400 := by decide
  calc q &&& 0o400 = q &&& (0o600 &&& 0o400) := by rw [h1]
    _ = (q &&& 0o600) &&& 0o400 := by rw [Nat.land_assoc]
    _ = 0o400 := by rw [h, h1]

/-- The stat pass keeps one record per child carrying the child's name, in
list order. -/
theorem statChildren_names : ∀ {fuel : Nat} {root : Entry} {dpath : String}
    {cs : List (String × Entry)} {es : List DirEntry},
    statChildren fuel root dpath cs = .ok es →
    es.map DirEntry.name = cs.map Prod.fst := by
  intro fuel root dpath cs
  induction cs with
  | nil => intro es h; simp only [statChildren, Except.ok.injEq] at h; simp [← h]
  | cons hd rest ih =>
    intro es h
    obtain ⟨n0, e0⟩ := hd
    simp only [statChildren] at h
    cases hstat : entryStat fuel root e0 (pathJoin dpath n0) with
    | error err => rw [hstat] at h; simp at h
    | ok info =>
      rw [hstat] at h
      cases hrest : statChildren fuel root dpath rest with
      | error err => rw [hrest] at h; simp at h
      | ok tail =>
        rw [hrest] at h
        simp only [Except.ok.injEq] at h
        simp [← h, ih hrest]

/-- The materialized listing is sorted by name and holds exactly the
children's names. -/
theorem initializeEntries_spec {fuel : Nat} {root : Entry} {h : DirHandle}
    {es : List DirEntry} (hinit : initializeEntries fuel root h = .ok es) :
    List.Sorted byNameLE es
      ∧ List.Perm (es.map DirEntry.name) (h.children.map Prod.fst) := by
  simp only [initializeEntries] at hinit
  cases hstat : statChildren fuel root h.path h.children with
  | error err => rw [hstat] at hinit; simp at hinit
  | ok sts =>
    rw [hstat] at hinit
    simp only [Except.ok.injEq] at hinit
    subst hinit
    refine ⟨List.sorted_insertionSort byNameLE sts, ?_⟩
    have h1 := (List.perm_insertionSort byNameLE sts).map DirEntry.name
    rw [statChildren_names hstat] at h1
    exact h1

/-- Result discriminator for OpenFile outcomes. -/
def openFileIsOk : Except FsError (Handle × Entry) → Bool
  | .ok _ => true
  | .error _ => false

/-- Result discriminator for tree-returning façade operations. -/
def treeOpIsOk : Except FsError Entry → Bool
  | .ok _ => true
  | .error _ => false

/-- A root with one existing file "f" (permission 0644, content [7]). -/
def c2Root : Entry := .dir 0o777 [("f", .file 0o644 [7])]

/-- C2 counterexample: on a path where a child exists, OpenFile with
O_CREATE together with O_EXCL does not fail: it returns a handle on the
existing file (the flag O_EXCL is never inspected by memfs.OpenFile). -/
theorem c2_openfile_excl_counterexample :
    memfsOpenFile 5 c2Root "f" (O_WRONLY ||| O_CREATE ||| O_EXCL) 0
      = .ok (.file ⟨"f", false, true, O_WRONLY ||| O_CREATE ||| O_EXCL, [7], 0, 0⟩,
             c2Root) := rfl

/-- C2 (amended): memfs.OpenFile ignores O_EXCL.  With O_CREATE with
O_EXCL on a path whose parent resolves and where the child already exists
as a file whose owner bits admit read and write, OpenFile succeeds exactly
as without O_EXCL: it returns a write-only handle over the existing
content (which is not replaced) and leaves the tree unchanged. -/
theorem c2_openfile_excl_amended (fuel : Nat) (root : Entry) (p : String)
    (perm fperm pperm : Nat) (c : List Nat) (pcs : List (String × Entry))
    (hpar : Entry.find fuel root (split p).1 = some (.dir pperm pcs))
    (hchild : lookupChild pcs (split p).2 = some (.file fperm c))
    (hfp : (fperm &&& 0o777) &&& 0o600 = 0o600) :
    memfsOpenFile fuel root p (O_WRONLY ||| O_CREATE ||| O_EXCL) perm
      = .ok (.file ⟨p, false, true, O_WRONLY ||| O_CREATE ||| O_EXCL, c, 0, 0⟩, root) := by
  have happend : (193 : Nat) &&& 1024 = 0 := by decide
  simp [memfsOpenFile, hpar, hchild, entryOpen, fileOpen, O_WRONLY, O_RDWR,
    O_CREATE, O_EXCL, O_APPEND, hfp, Except.map, happend]

/-- C2 witness: the amended theorem applied to the concrete one-file root. -/
theorem c2_openfile_excl_witness :
    Entry.find 5 c2Root (split "f").1 = some (.dir 0o777 [("f", .file 0o644 [7])])
    ∧ lookupChild [("f", .file 0o644 [7])] (split "f").2 = some (.file 0o644 [7])
    ∧ (0o644 &&& 0o777) &&& 0o600 = 0o600
    ∧ memfsOpenFile 5 c2Root "f" (O_WRONLY ||| O_CREATE ||| O_EXCL) 0
      = .ok (.file ⟨"f", false, true, O_WRONLY ||| O_CREATE ||| O_EXCL, [7], 0, 0⟩,
             c2Root) :=
  ⟨rfl, rfl, by decide,
    c2_openfile_excl_amended 5 c2Root "f" 0 0o644 0o777 [7]
      [("f", .file 0o644 [7])] rfl rfl (by decide)⟩

/-- C3 counterexample: a file whose permission is exactly 0200 (owner-write
set, owner-read clear) cannot be opened write-only: file.open demands the
owner-read bit as well, so the claimed "succeeds iff 0200 is set" fails. -/
theorem c3_wronly_counterexample :
    fileOpen 0o200 [] "f" O_WRONLY = .error (.pathError "open" "f" .permission) := rfl

/-- C3 (amended): file.open demands the owner-read bit 0400 always, and
additionally the owner-write bit 0200 for write access.  So a write
requesting open (write-only or read-write) succeeds iff both 0400 and 0200
are set, a read-only open succeeds iff 0400 is set, and in either case a
failing check yields a permission error and no handle.  Write-only handles
have read disabled; read-only handles have write disabled. -/
theorem c3_open_mode_permission (perm : Nat) (content : List Nat) (p : String) (flag : Nat) :
    ((flag &&& O_WRONLY ≠ 0 ∨ flag &&& O_RDWR ≠ 0) →
      (((perm &&& 0o777) &&& 0o600 = 0o600 →
         ∃ h, fileOpen perm content p flag = .ok h ∧ h.writable = true)
       ∧ ((perm &&& 0o777) &&& 0o600 ≠ 0o600 →
         fileOpen perm content p flag = .error (.pathError "open" p .permission))))
    ∧ ((flag &&& O_WRONLY ≠ 0 ∨ flag &&& O_RDWR ≠ 0) → flag &&& O_WRONLY ≠ 0 →
      (perm &&& 0o777) &&& 0o600 = 0o600 →
      ∃ h, fileOpen perm content p flag = .ok h ∧ h.readable = false)
    ∧ (¬(flag &&& O_WRONLY ≠ 0 ∨ flag &&& O_RDWR ≠ 0) →
      (((perm &&& 0o777) &&& 0o400 = 0o400 →
         ∃ h, fileOpen perm content p flag = .ok h
           ∧ h.readable = true ∧ h.writable = false)
       ∧ ((perm &&& 0o777) &&& 0o400 ≠ 0o400 →
         fileOpen perm content p flag = .error (.pathError "open" p .permission)))) := by
  refine ⟨fun hw => ⟨fun hperm => ?_, fun hperm => ?_⟩,
    fun hw hwo hperm => ?_, fun hr => ⟨fun hperm => ?_, fun hperm => ?_⟩⟩
  · cases heq : fileOpen perm content p flag with
    | error err =>
      exfalso
      simp only [fileOpen, if_pos hw] at heq
      rw [if_neg (by simpa using hperm)] at heq
      cases heq
    | ok h =>
      refine ⟨h, rfl, ?_⟩
      simp only [fileOpen, if_pos hw] at heq
      rw [if_neg (by simpa using hperm)] at heq
      cases heq
      simpa using hw
  · simp only [fileOpen, if_pos hw]
    rw [if_pos (by simpa using hperm)]
  · cases heq : fileOpen perm content p flag with
    | error err =>
      exfalso
      simp only [fileOpen, if_pos hw] at heq
      rw [if_neg (by simpa using hperm)] at heq
      cases heq
    | ok h =>
      refine ⟨h, rfl, ?_⟩
      simp only [fileOpen, if_pos hw] at heq
      rw [if_neg (by simpa using hperm)] at heq
      cases heq
      simpa using hwo
  · cases heq : fileOpen perm content p flag with
    | error err =>
      exfalso
      simp only [fileOpen, if_neg hr] at heq
      rw [if_neg (by simpa using hperm)] at heq
      cases heq
    | ok h =>
      refine ⟨h, rfl, ?_, ?_⟩ <;>
      · push_neg at hr
        simp only [fileOpen, if_neg (by simpa using And.intro hr.1 hr.2 :
          ¬(flag &&& O_WRONLY ≠ 0 ∨ flag &&& O_RDWR ≠ 0))] at heq
        rw [if_neg (by simpa using hperm)] at heq
        cases heq
        simp [hr.1, hr.2]
  · simp only [fileOpen, if_neg hr]
    rw [if_pos (by simpa using hperm)]

/-- C3 witness: a write-only open on permission 0644 succeeds with a
writable, non-readable handle; on permission 0244 it fails. -/
theorem c3_open_mode_permission_witness :
    ((O_WRONLY &&& O_WRONLY ≠ 0 ∨ O_WRONLY &&& O_RDWR ≠ 0)
      ∧ (0o644 &&& 0o777) &&& 0o600 = 0o600
      ∧ ∃ h, fileOpen 0o644 [3] "f" O_WRONLY = .ok h ∧ h.writable = true)
    ∧ ((0o244 &&& 0o777) &&& 0o600 ≠ 0o600
      ∧ fileOpen 0o244 [] "g" O_WRONLY = .error (.pathError "open" "g" .permission)) :=
  ⟨⟨by decide, by decide,
    ((c3_open_mode_permission 0o644 [3] "f" O_WRONLY).1 (by decide)).1 (by decide)⟩,
   ⟨by decide,
    ((c3_open_mode_permission 0o244 [] "g" O_WRONLY).1 (by decide)).2 (by decide)⟩⟩

/-- C8 counterexample: on an empty filesystem, Symlink to a target that
does not exist fails not-found instead of inserting the link, because
memfs.Symlink resolves oldname first and rejects a nil result. -/
theorem c8_symlink_counterexample :
    memfsSymlink 5 (.dir 0o777 []) "missing" "link"
      = .error (.pathError "Symlink" "missing" .notExist) := rfl

/-- C8 (amended): memfs.Symlink requires the target oldname to resolve to
an existing node.  When it does and the parent of newname resolves to a
directory, a symlink node whose target is the literal string oldname is
inserted under newname; when oldname does not resolve, Symlink fails
not-found naming oldname and inserts nothing. -/
theorem c8_symlink_requires_target (fuel : Nat) (root : Entry) (old new : String)
    (pperm : Nat) (pcs : List (String × Entry)) :
    (Entry.find fuel root old = none →
      memfsSymlink fuel root old new = .error (.pathError "Symlink" old .notExist))
    ∧ (∀ e, Entry.find fuel root old = some e →
      Entry.find fuel root (split new).1 = some (.dir pperm pcs) →
      memfsSymlink fuel root old new
          = .ok (updateDirAt fuel root (split new).1
              (fun cs => setChild cs (split new).2 (.symlink old)))
        ∧ Entry.find fuel (updateDirAt fuel root (split new).1
              (fun cs => setChild cs (split new).2 (.symlink old))) (split new).1
            = some (.dir pperm (setChild pcs (split new).2 (.symlink old)))
        ∧ lookupChild (setChild pcs (split new).2 (.symlink old)) (split new).2
            = some (.symlink old)) := by
  constructor
  · intro hnone
    simp [memfsSymlink, hnone]
  · intro e he hpar
    refine ⟨by simp [memfsSymlink, he, hpar], ?_, lookupChild_setChild_self _ _ _⟩
    exact find_updateDirAt _ hpar

/-- C8 witness: both amended branches at concrete inputs: the failing
insert on an empty root, and a successful insert of a link to an existing
file. -/
theorem c8_symlink_requires_target_witness :
    (Entry.find 5 (Entry.dir 0o777 []) "missing" = none
      ∧ memfsSymlink 5 (.dir 0o777 []) "missing" "link2"
        = .error (.pathError "Symlink" "missing" .notExist))
    ∧ (Entry.find 5 (Entry.dir 0o777 [("t", .file 0o644 [1])]) "t"
        = some (.file 0o644 [1])
      ∧ Entry.find 5 (Entry.dir 0o777 [("t", .file 0o644 [1])]) (split "l").1
        = some (.dir 0o777 [("t", .file 0o644 [1])])
      ∧ memfsSymlink 5 (.dir 0o777 [("t", .file 0o644 [1])]) "t" "l"
        = .ok (updateDirAt 5 (.dir 0o777 [("t", .file 0o644 [1])]) (split "l").1
            (fun cs => setChild cs (split "l").2 (.symlink "t")))) :=
  ⟨⟨rfl, (c8_symlink_requires_target 5 (.dir 0o777 []) "missing" "link2" 0 []).1 rfl⟩,
   ⟨rfl, rfl,
    ((c8_symlink_requires_target 5 (.dir 0o777 [("t", .file 0o644 [1])]) "t" "l"
        0o777 [("t", .file 0o644 [1])]).2 (.file 0o644 [1]) rfl rfl).1⟩⟩

/-- C9: stat and open on a symlink whose target does not resolve fail
not-found with the error's path field naming the symlink's target, which
differs from the link's own path; the same surfaces through memfs.Stat on
the link's path. -/
theorem c9_dangling_symlink_error_path (fuel : Nat) (root : Entry)
    (target linkPath : String) (flag : Nat)
    (htarget : Entry.find (fuel + 1) root target = none)
    (hne : linkPath ≠ target) :
    entryStat (fuel + 1) root (.symlink target) linkPath
        = .error (.pathError "stat" target .notExist)
    ∧ entryOpen (fuel + 1) root (.symlink target) linkPath flag
        = .error (.pathError "open" target .notExist)
    ∧ (∀ op kind, (FsError.pathError op target kind) ≠ .pathError op linkPath kind)
    ∧ (Entry.find (fuel + 1) root linkPath = some (.symlink target) →
       memfsStat (fuel + 1) root linkPath
         = .error (.pathError "stat" target .notExist)) := by
  refine ⟨?_, ?_, ?_, ?_⟩
  · simp [entryStat, htarget]
  · simp [entryOpen, htarget]
  · intro op kind
    simp [Ne.symm hne]
  · intro hfind
    simp [memfsStat, hfind, entryStat, htarget]

/-- C9 witness: a root holding only a symlink "link" to the absent path
"gone"; stat on the link fails not-found naming "gone". -/
theorem c9_dangling_symlink_error_path_witness :
    (Entry.find 5 (Entry.dir 0o777 [("link", .symlink "gone")]) "gone" = none
      ∧ "link" ≠ "gone")
    ∧ entryStat 5 (Entry.dir 0o777 [("link", .symlink "gone")]) (.symlink "gone") "link"
        = .error (.pathError "stat" "gone" .notExist)
    ∧ memfsStat 5 (Entry.dir 0o777 [("link", .symlink "gone")]) "link"
        = .error (.pathError "stat" "gone" .notExist) :=
  ⟨⟨rfl, by decide⟩,
   (c9_dangling_symlink_error_path 4 (Entry.dir 0o777 [("link", .symlink "gone")])
      "gone" "link" O_RDONLY rfl (by decide)).1,
   (c9_dangling_symlink_error_path 4 (Entry.dir 0o777 [("link", .symlink "gone")])
      "gone" "link" O_RDONLY rfl (by decide)).2.2.2 rfl⟩

/-- C4 counterexample: Remove on an existing non-empty directory succeeds
and deletes the whole subtree, where the claim requires it to fail. -/
theorem c4_remove_counterexample :
    memfsRemove 5 (.dir 0o777 [("a", .dir 0o777 [("b", .file 0o644 [])])]) "a"
      = .ok (.dir 0o777 []) := rfl

/-- C4 (amended): memfs.Remove succeeds whenever the parent of the path
resolves to a directory, whatever the final name is bound to: an absent
name (delete is a no-op), an empty directory, a file, or a non-empty
directory whose whole subtree is detached.  When the parent itself does
not resolve, Remove fails not-found.  RemoveAll is literally Remove. -/
theorem c4_remove_semantics (fuel : Nat) (root : Entry) (p : String)
    (pperm : Nat) (pcs : List (String × Entry)) :
    (Entry.find fuel root (split p).1 = some (.dir pperm pcs) →
      memfsRemove fuel root p
          = .ok (updateDirAt fuel root (split p).1
              (fun cs => eraseChild cs (split p).2))
        ∧ Entry.find fuel (updateDirAt fuel root (split p).1
              (fun cs => eraseChild cs (split p).2)) (split p).1
            = some (.dir pperm (eraseChild pcs (split p).2))
        ∧ ((pcs.map Prod.fst).Nodup →
            lookupChild (eraseChild pcs (split p).2) (split p).2 = none))
    ∧ (Entry.find fuel root (split p).1 = none →
        memfsRemove fuel root p = .error (.pathError "Remove" p .notExist))
    ∧ (∀ q, memfsRemoveAll fuel root q = memfsRemove fuel root q) := by
  refine ⟨fun hpar => ⟨by simp [memfsRemove, hpar], find_updateDirAt _ hpar,
      fun hnd => lookupChild_eraseChild_self _ hnd⟩,
    fun hnone => by simp [memfsRemove, hnone], fun q => rfl⟩

/-- C4 witness: removing the non-empty directory "a" from a concrete root
succeeds and unbinds "a"; removing "nope/x" from an empty root fails
not-found; RemoveAll coincides with Remove there. -/
theorem c4_remove_semantics_witness :
    (Entry.find 5 (Entry.dir 0o777 [("a", .dir 0o777 [("b", .file 0o644 [])])])
        (split "a").1
        = some (.dir 0o777 [("a", .dir 0o777 [("b", .file 0o644 [])])])
      ∧ memfsRemove 5 (.dir 0o777 [("a", .dir 0o777 [("b", .file 0o644 [])])]) "a"
          = .ok (updateDirAt 5
              (.dir 0o777 [("a", .dir 0o777 [("b", .file 0o644 [])])])
              (split "a").1 (fun cs => eraseChild cs (split "a").2)))
    ∧ (Entry.find 5 (Entry.dir 0o777 []) (split "nope/x").1 = none
      ∧ memfsRemove 5 (.dir 0o777 []) "nope/x"
          = .error (.pathError "Remove" "nope/x" .notExist))
    ∧ memfsRemoveAll 5 (.dir 0o777 []) "q" = memfsRemove 5 (.dir 0o777 []) "q" :=
  ⟨⟨rfl, ((c4_remove_semantics 5
      (.dir 0o777 [("a", .dir 0o777 [("b", .file 0o644 [])])]) "a" 0o777
      [("a", .dir 0o777 [("b", .file 0o644 [])])]).1 rfl).1⟩,
   ⟨rfl, (c4_remove_semantics 5 (.dir 0o777 []) "nope/x" 0 []).2.1 rfl⟩,
   (c4_remove_semantics 5 (.dir 0o777 []) "ignored" 0 []).2.2 "q"⟩

/-- C10: whenever the parent of the path resolves to an existing
directory, Mkdir succeeds unconditionally, binding the final name to a
fresh empty directory with the requested permission; any previous child of
that name, of any kind, is replaced, and no already-exists error is ever
produced (the parent's child set is never consulted). -/
theorem c10_mkdir_replaces (fuel : Nat) (root : Entry) (p : String)
    (perm pperm : Nat) (pcs : List (String × Entry))
    (hpar : Entry.find fuel root (split p).1 = some (.dir pperm pcs)) :
    memfsMkdir fuel root p perm
        = .ok (updateDirAt fuel root (split p).1
            (fun cs => setChild cs (split p).2 (.dir perm [])))
      ∧ Entry.find fuel (updateDirAt fuel root (split p).1
            (fun cs => setChild cs (split p).2 (.dir perm []))) (split p).1
          = some (.dir pperm (setChild pcs (split p).2 (.dir perm [])))
      ∧ lookupChild (setChild pcs (split p).2 (.dir perm [])) (split p).2
          = some (.dir perm []) :=
  ⟨by simp [memfsMkdir, hpar], find_updateDirAt _ hpar,
    lookupChild_setChild_self _ _ _⟩

/-- C10 witness: Mkdir over a name already bound to a non-empty directory
succeeds and rebinds it to a fresh empty directory with the new
permission. -/
theorem c10_mkdir_replaces_witness :
    Entry.find 5 (Entry.dir 0o777 [("d", .dir 0o755 [("x", .file 0o644 [1])])])
        (split "d").1
      = some (.dir 0o777 [("d", .dir 0o755 [("x", .file 0o644 [1])])])
    ∧ memfsMkdir 5 (.dir 0o777 [("d", .dir 0o755 [("x", .file 0o644 [1])])]) "d" 0o700
        = .ok (updateDirAt 5
            (.dir 0o777 [("d", .dir 0o755 [("x", .file 0o644 [1])])])
            (split "d").1 (fun cs => setChild cs (split "d").2 (.dir 0o700 [])))
    ∧ lookupChild (setChild [("d", .dir 0o755 [("x", .file 0o644 [1])])]
        (split "d").2 (.dir 0o700 [])) (split "d").2 = some (.dir 0o700 []) :=
  ⟨rfl,
   (c10_mkdir_replaces 5 (.dir 0o777 [("d", .dir 0o755 [("x", .file 0o644 [1])])])
      "d" 0o700 0o777 [("d", .dir 0o755 [("x", .file 0o644 [1])])] rfl).1,
   (c10_mkdir_replaces 5 (.dir 0o777 [("d", .dir 0o755 [("x", .file 0o644 [1])])])
      "d" 0o700 0o777 [("d", .dir 0o755 [("x", .file 0o644 [1])])] rfl).2.2⟩

/-- C5: renaming a child b of a directory to sibling name c (b and c
distinct) succeeds; afterwards the parent's children bind c to the
original node and no longer bind b, so the old path resolves to nothing
and the new path resolves to the original node with its original content.
Renaming to a path whose parent does not resolve fails not-found naming
the new path; the error is produced before any mutation, so the tree is
unchanged (the operation returns no new tree at all). -/
theorem c5_rename_semantics (fuel : Nat) (root : Entry) (oldpath newpath : String)
    (pperm : Nat) (pcs : List (String × Entry)) (node : Entry) :
    ((split newpath).1 = (split oldpath).1 →
      (split oldpath).2 ≠ (split newpath).2 →
      Entry.find fuel root (split oldpath).1 = some (.dir pperm pcs) →
      lookupChild pcs (split oldpath).2 = some node →
      (pcs.map Prod.fst).Nodup →
      memfsRename fuel root oldpath newpath
          = .ok (updateDirAt fuel
              (updateDirAt fuel root (split oldpath).1
                (fun cs => eraseChild cs (split oldpath).2))
              (split oldpath).1
              (fun cs => setChild cs (split newpath).2 node))
        ∧ Entry.find fuel (updateDirAt fuel
              (updateDirAt fuel root (split oldpath).1
                (fun cs => eraseChild cs (split oldpath).2))
              (split oldpath).1
              (fun cs => setChild cs (split newpath).2 node)) (split oldpath).1
            = some (.dir pperm
                (setChild (eraseChild pcs (split oldpath).2) (split newpath).2 node))
        ∧ lookupChild (setChild (eraseChild pcs (split oldpath).2)
              (split newpath).2 node) (split oldpath).2 = none
        ∧ lookupChild (setChild (eraseChild pcs (split oldpath).2)
              (split newpath).2 node) (split newpath).2 = some node)
    ∧ (∀ oldparent, Entry.find fuel root (split oldpath).1 = some oldparent →
        Entry.find fuel root (split newpath).1 = none →
        memfsRename fuel root oldpath newpath
          = .error (.pathError "Rename" newpath .notExist)) := by
  constructor
  · intro hsame hbc hpar hb hnd
    have hfind1 : Entry.find fuel (updateDirAt fuel root (split oldpath).1
        (fun cs => eraseChild cs (split oldpath).2)) (split oldpath).1
        = some (.dir pperm (eraseChild pcs (split oldpath).2)) :=
      find_updateDirAt _ hpar
    refine ⟨?_, find_updateDirAt _ hfind1, ?_,
      lookupChild_setChild_self _ _ _⟩
    · simp [memfsRename, hsame, hpar, hb]
    · rw [lookupChild_setChild_ne _ _ hbc]
      exact lookupChild_eraseChild_self _ hnd
  · intro oldparent hold hnew
    simp [memfsRename, hold, hnew]

/-- C5 witness: renaming "a/b" to "a/c" on a concrete tree succeeds, after
which b is unbound and c is bound to the original file; renaming "f" to
"nope/f" fails not-found for the new path. -/
theorem c5_rename_semantics_witness :
    ((split "a/c").1 = (split "a/b").1
      ∧ (split "a/b").2 ≠ (split "a/c").2
      ∧ Entry.find 5 (Entry.dir 0o777 [("a", .dir 0o777 [("b", .file 0o644 [1, 2])])])
          (split "a/b").1 = some (.dir 0o777 [("b", .file 0o644 [1, 2])])
      ∧ lookupChild [("b", Entry.file 0o644 [1, 2])] (split "a/b").2
          = some (.file 0o644 [1, 2])
      ∧ lookupChild (setChild (eraseChild [("b", Entry.file 0o644 [1, 2])]
            (split "a/b").2) (split "a/c").2 (.file 0o644 [1, 2])) (split "a/b").2
          = none
      ∧ lookupChild (setChild (eraseChild [("b", Entry.file 0o644 [1, 2])]
            (split "a/b").2) (split "a/c").2 (.file 0o644 [1, 2])) (split "a/c").2
          = some (.file 0o644 [1, 2]))
    ∧ (Entry.find 5 (Entry.dir 0o777 [("f", .file 0o644 [])]) (split "nope/f").1 = none
      ∧ memfsRename 5 (.dir 0o777 [("f", .file 0o644 [])]) "f" "nope/f"
          = .error (.pathError "Rename" "nope/f" .notExist)) :=
  ⟨⟨rfl, by decide, rfl, rfl,
    (((c5_rename_semantics 5
        (.dir 0o777 [("a", .dir 0o777 [("b", .file 0o644 [1, 2])])]) "a/b" "a/c"
        0o777 [("b", .file 0o644 [1, 2])] (.file 0o644 [1, 2])).1
        rfl (by decide) rfl rfl (by decide)).2.2).1,
    (((c5_rename_semantics 5
        (.dir 0o777 [("a", .dir 0o777 [("b", .file 0o644 [1, 2])])]) "a/b" "a/c"
        0o777 [("b", .file 0o644 [1, 2])] (.file 0o644 [1, 2])).1
        rfl (by decide) rfl rfl (by decide)).2.2).2⟩,
   ⟨rfl,
    (c5_rename_semantics 5 (.dir 0o777 [("f", .file 0o644 [])]) "f" "nope/f"
        0 [] (.file 0 [])).2 (.dir 0o777 [("f", .file 0o644 [])]) rfl rfl⟩⟩

/-- The directory fixture of the repository's own ReadDir test: children
f2, d1, f1, d2 (insertion order irrelevant for the map). -/
def fixtureChildren : List (String × Entry) :=
  [("f2", .file 0o644 []), ("d1", .dir 0o777 []),
   ("f1", .file 0o644 []), ("d2", .dir 0o777 [])]

/-- A root directory holding the fixture children. -/
def fixtureRoot : Entry := .dir 0o777 fixtureChildren

/-- A fresh read-only dirHandle over the fixture, entries not yet
materialized. -/
def fixtureHandle : DirHandle := ⟨fixtureChildren, "test", none, 0, false⟩


/-- The materialized listing the fixture produces: the four children
sorted by name, with their stat records. -/
def fixtureEntries : List DirEntry :=
  [⟨"d1", ⟨"test/d1", 0, ModeDir ||| 0o777⟩⟩,
   ⟨"d2", ⟨"test/d2", 0, ModeDir ||| 0o777⟩⟩,
   ⟨"f1", ⟨"test/f1", 0, 0o644⟩⟩,
   ⟨"f2", ⟨"test/f2", 0, 0o644⟩⟩]

/-- C6: the materialized listing is sorted by name and lists exactly the
children; a single ReadDir call with n ≤ 0 on a fresh handle returns the
whole listing; paging with any fixed n > 0 until end-of-stream yields the
same entries in the same order; concretely, on children {f2, d1, f1, d2},
ReadDir(-1) gives [d1, d2, f1, f2] and ReadDir(3);ReadDir(3) gives
[d1, d2, f1] then [f2]. -/
theorem c6_readdir_sorted_pagination (fuel : Nat) (root : Entry) (h : DirHandle)
    (es : List DirEntry) (n m : Int) (pf : Nat)
    (hent : h.entries = none) (hidx : h.lastEntryIndex = 0)
    (hinit : initializeEntries fuel root h = .ok es) :
    List.Sorted byNameLE es
    ∧ List.Perm (es.map DirEntry.name) (h.children.map Prod.fst)
    ∧ (es ≠ [] → m ≤ 0 →
        readDir fuel root h m = .ok (es, { h with entries := some es }))
    ∧ (0 < n → es.length + 1 ≤ pf → readDirPages fuel pf root h n = es)
    ∧ (readDir 5 fixtureRoot fixtureHandle (-1)).map (fun pr => pr.1.map DirEntry.name)
        = .ok ["d1", "d2", "f1", "f2"]
    ∧ ((do
          let (p1, h1) ← readDir 5 fixtureRoot fixtureHandle 3
          let (p2, _) ← readDir 5 fixtureRoot h1 3
          pure (p1.map DirEntry.name, p2.map DirEntry.name))
        : Except FsError (List String × List String))
        = .ok (["d1", "d2", "f1"], ["f2"]) := by
  refine ⟨(initializeEntries_spec hinit).1, (initializeEntries_spec hinit).2,
    ?_, ?_, rfl, rfl⟩
  · intro hne hm
    have hlen : 0 < es.length := List.length_pos.mpr hne
    have hcond : ¬(es.length ≤ ({ h with entries := some es } : DirHandle).lastEntryIndex) := by
      show ¬(es.length ≤ h.lastEntryIndex)
      omega
    simp [readDir, hent, hinit, readDirCore, hcond, hm]
  · intro hn hpf
    obtain ⟨pf2, rfl⟩ : ∃ pf2, pf = pf2 + 1 := ⟨pf - 1, by omega⟩
    have hbridge : readDirPages fuel (pf2 + 1) root h n
        = readDirPages fuel (pf2 + 1) root { h with entries := some es } n := by
      simp [readDirPages, readDir, hent, hinit]
    have hspec := readDirPages_spec (pf2 + 1) fuel root
      { h with entries := some es } es n rfl
      (by show h.lastEntryIndex ≤ es.length; omega) hn
      (by show es.length - h.lastEntryIndex + 1 ≤ pf2 + 1; omega)
    rw [hbridge, hspec]
    show es.drop h.lastEntryIndex = es
    rw [hidx]
    rfl

/-- C6 witness: the general clauses applied to the concrete fixture: the
materialized listing of {f2, d1, f1, d2} is [d1, d2, f1, f2] sorted, a
single ReadDir(-1) returns it whole, and pages of three concatenate to
it. -/
theorem c6_readdir_sorted_pagination_witness :
    (fixtureHandle.entries = none ∧ fixtureHandle.lastEntryIndex = 0
      ∧ initializeEntries 5 fixtureRoot fixtureHandle = .ok fixtureEntries)
    ∧ List.Sorted byNameLE fixtureEntries
    ∧ readDir 5 fixtureRoot fixtureHandle (-1)
        = .ok (fixtureEntries, { fixtureHandle with entries := some fixtureEntries })
    ∧ readDirPages 5 5 fixtureRoot fixtureHandle 3 = fixtureEntries :=
  ⟨⟨rfl, rfl, rfl⟩,
   (c6_readdir_sorted_pagination 5 fixtureRoot fixtureHandle fixtureEntries 3 (-1) 5
      rfl rfl rfl).1,
   (c6_readdir_sorted_pagination 5 fixtureRoot fixtureHandle fixtureEntries 3 (-1) 5
      rfl rfl rfl).2.2.1 (by decide) (by decide),
   (c6_readdir_sorted_pagination 5 fixtureRoot fixtureHandle fixtureEntries 3 (-1) 5
      rfl rfl rfl).2.2.2.1 (by decide) (by decide)⟩

/-- C7 counterexample: on the fixture handle, after ReadDir(3) consumed
three of the four entries, ReadDir(-1) returns all four entries from the
beginning, not the single remaining one, and a further ReadDir(3) still
returns the fourth entry rather than nothing. -/
theorem c7_readdir_after_pages_counterexample :
    ((do
        let (_, h1) ← readDir 5 fixtureRoot fixtureHandle 3
        let (p2, h2) ← readDir 5 fixtureRoot h1 (-1)
        let (p3, _) ← readDir 5 fixtureRoot h2 3
        pure (p2.map DirEntry.name, p3.map DirEntry.name))
      : Except FsError (List String × List String))
      = .ok (["d1", "d2", "f1", "f2"], ["f2"]) := rfl

/-- C7 (amended): on a handle whose entries are materialized and whose
cursor sits strictly before the end, ReadDir with n ≤ 0 returns the FULL
materialized list from the beginning and leaves the handle (in particular
its cursor) unchanged, so later positive reads continue from the old
cursor; once the cursor has reached the end, every ReadDir call, n ≤ 0
included, returns the end-of-stream error and no entries. -/
theorem c7_readdir_unbounded_returns_all (fuel : Nat) (root : Entry)
    (h : DirHandle) (es : List DirEntry) (n : Int)
    (hes : h.entries = some es) (hn : n ≤ 0) :
    (h.lastEntryIndex < es.length → readDir fuel root h n = .ok (es, h))
    ∧ (es.length ≤ h.lastEntryIndex → readDir fuel root h n = .error .eof) := by
  constructor
  · intro hlt
    simp [readDir, hes, readDirCore, Nat.not_le.mpr hlt, hn]
  · intro hge
    simp [readDir, hes, readDirCore, hge]

/-- C7 witness: a fixture handle with cursor 3 of 4: ReadDir(-1) returns
all four entries with the cursor still at 3; with cursor 4, ReadDir(-1)
returns EOF. -/
theorem c7_readdir_unbounded_returns_all_witness :
    (({ fixtureHandle with entries := some fixtureEntries, lastEntryIndex := 3 }
        : DirHandle).entries = some fixtureEntries
      ∧ (-1 : Int) ≤ 0 ∧ 3 < fixtureEntries.length
      ∧ readDir 5 fixtureRoot
          { fixtureHandle with entries := some fixtureEntries, lastEntryIndex := 3 } (-1)
        = .ok (fixtureEntries,
            { fixtureHandle with entries := some fixtureEntries, lastEntryIndex := 3 }))
    ∧ (fixtureEntries.length ≤ 4
      ∧ readDir 5 fixtureRoot
          { fixtureHandle with entries := some fixtureEntries, lastEntryIndex := 4 } (-1)
        = .error .eof) :=
  ⟨⟨rfl, by decide, by decide,
    (c7_readdir_unbounded_returns_all 5 fixtureRoot
      { fixtureHandle with entries := some fixtureEntries, lastEntryIndex := 3 }
      fixtureEntries (-1) rfl (by decide)).1 (by decide)⟩,
   ⟨by decide,
    (c7_readdir_unbounded_returns_all 5 fixtureRoot
      { fixtureHandle with entries := some fixtureEntries, lastEntryIndex := 4 }
      fixtureEntries (-1) rfl (by decide)).2 (by decide)⟩⟩

/-- C1: creating a file at a fresh name directly under the root via
OpenFile with write-only and create, writing any byte sequence d through
the handle, closing it (which commits the buffer), then opening the same
path fresh and read-only via Open and reading to end-of-stream returns
exactly d.  The hypotheses are the success conditions of the claimed
operations: the name is a valid fresh single-segment path, the parent
grants owner-write, and the creation permission admits the write-only
open (owner-read and owner-write bits, see file.open). -/
theorem c1_write_read_roundtrip (fuel bufSize : Nat) (rperm perm : Nat)
    (cs : List (String × Entry)) (fn : String) (d : List Nat)
    (hslash : '/' ∉ fn.data) (hne : ¬fn = "")
    (hnew : lookupChild cs fn = none)
    (hparw : ¬((rperm &&& 0o777) &&& 0o200 = 0))
    (hperm : (perm &&& 0o777) &&& 0o600 = 0o600)
    (hbs : 1 ≤ bufSize) (hfuel : d.length + 2 ≤ fuel) :
    writeReadRoundTrip fuel bufSize (.dir rperm cs) fn perm d = .ok d := by
  obtain ⟨F, rfl⟩ : ∃ F, fuel = F + 1 := ⟨fuel - 1, by omega⟩
  have hsplit : split fn = ("", fn) := split_no_slash hslash
  have hlsplit : lsplit fn = ("", fn) := lsplit_no_slash hslash
  have h65_64 : ¬((O_WRONLY ||| O_CREATE : Nat) &&& O_CREATE = 0) := by decide
  have h65_1 : (O_WRONLY ||| O_CREATE : Nat) &&& O_WRONLY = 1 := by decide
  have h65_2 : (O_WRONLY ||| O_CREATE : Nat) &&& O_RDWR = 0 := by decide
  have h65_1024 : (O_WRONLY ||| O_CREATE : Nat) &&& O_APPEND = 0 := by decide
  have hlor : (0o400 ||| 0o200 : Nat) = 0o600 := by decide
  have hopen : memfsOpenFile (F + 1) (.dir rperm cs) fn (O_WRONLY ||| O_CREATE) perm
      = .ok (.file ⟨fn, false, true, O_WRONLY ||| O_CREATE, [], 0, 0⟩,
             .dir rperm (setChild cs fn (.file perm []))) := by
    simp [memfsOpenFile, hsplit, Entry.find, hnew, h65_64, hparw, updateDirAt,
      Entry.updateAt, entryOpen, fileOpen, h65_1, h65_2, h65_1024, hlor, hperm,
      Except.map]
  have hwrite : Handle.write (.file ⟨fn, false, true, O_WRONLY ||| O_CREATE, [], 0, 0⟩) d
      = .ok (.file ⟨fn, false, true, O_WRONLY ||| O_CREATE, d, 0, d.length⟩,
             d.length) := by
    by_cases hd : 0 < d.length
    · simp [Handle.write, FileHandle.write, hd, Except.map]
    · have hd0 : d = [] := List.length_eq_zero.mp (by omega)
      subst hd0
      rfl
  have hclose : Handle.closeCommit (F + 1)
      (.dir rperm (setChild cs fn (.file perm [])))
      (.file ⟨fn, false, true, O_WRONLY ||| O_CREATE, d, 0, d.length⟩)
      = .dir rperm (updateChildAt (setChild cs fn (.file perm [])) fn
          (fun e => match e with
            | Entry.file pp _ => Entry.file pp d
            | e => e)) := by
    simp [Handle.closeCommit, Entry.updateAt, hne, hlsplit]
  have hlook3 : lookupChild (updateChildAt (setChild cs fn (.file perm [])) fn
      (fun e => match e with
        | Entry.file pp _ => Entry.file pp d
        | e => e)) fn = some (.file perm d) := by
    rw [lookupChild_updateChildAt_self, lookupChild_setChild_self]
    rfl
  have hfind3 : Entry.find (F + 1)
      (.dir rperm (updateChildAt (setChild cs fn (.file perm [])) fn
        (fun e => match e with
          | Entry.file pp _ => Entry.file pp d
          | e => e))) fn = some (.file perm d) := by
    simp [Entry.find, hne, hlsplit, hlook3]
  have hropen : memfsOpen (F + 1)
      (.dir rperm (updateChildAt (setChild cs fn (.file perm [])) fn
        (fun e => match e with
          | Entry.file pp _ => Entry.file pp d
          | e => e))) fn
      = .ok (.file ⟨fn, true, false, O_RDONLY, d, 0, 0⟩) := by
    simp [memfsOpen, hfind3, entryOpen, fileOpen, O_RDONLY, O_WRONLY, O_RDWR,
      O_APPEND, land_0o400_of_land_0o600 hperm, Except.map]
  have hread := readAllFuel_spec (F + 1) bufSize ⟨fn, true, false, O_RDONLY, d, 0, 0⟩
    rfl hbs (by simp only; omega)
  simp only [writeReadRoundTrip, hopen, hwrite, hclose, hropen, hread,
    List.drop_zero]

/-- C1 witness: the round trip of [10, 20, 30] through the fresh path "f"
on an empty root yields [10, 20, 30] back. -/
theorem c1_write_read_roundtrip_witness :
    ('/' ∉ "f".data ∧ ¬"f" = "" ∧ lookupChild [] "f" = none
      ∧ ¬((0o777 &&& 0o777) &&& 0o200 = 0) ∧ (0o644 &&& 0o777) &&& 0o600 = 0o600
      ∧ 1 ≤ 1 ∧ [10, 20, 30].length + 2 ≤ 9)
    ∧ writeReadRoundTrip 9 1 (.dir 0o777 []) "f" 0o644 [10, 20, 30]
        = .ok [10, 20, 30] :=
  ⟨⟨by decide, by decide, rfl, by decide, by decide, by decide, by decide⟩,
   c1_write_read_roundtrip 9 1 0o777 0o644 [] "f" [10, 20, 30]
     (by decide) (by decide) rfl (by decide) (by decide) (by decide) (by decide)⟩
